import Mathlib

/-!
# Verification of the Pronounce-Pal lesson session store

Shallow embedding of the client-side lesson session state machine of the
Pronounce-Pal repository, together with proofs about its operations.

The embedding follows `client/stores/lessonStore.ts` (the global store), the
`LearnScreen` component (extension protocol, audio cache and playback
coordination) and `WordsListScreen` (saved words).  JavaScript `Map`s are
modelled as association lists with `Map.get` / `Map.set` semantics, React
state updates as explicit state-passing, and each `notifyListeners` call as
an increment of the store's `version` counter (the source bumps `version`
exactly once per `notifyListeners` call and invokes every listener).
-/

set_option linter.unusedVariables false

/-- `{ word: string, phonetic: string }` from `lessonStore.ts`. -/
structure WordPhonetic where
  word : String
  phonetic : String
deriving DecidableEq

/-- `{ paragraph: string, words: WordPhonetic[] }` from `lessonStore.ts`. -/
structure ParagraphSection where
  paragraph : String
  words : List WordPhonetic
deriving DecidableEq

/-- `Lesson` from `lessonStore.ts`; `createdAt : Date` is modelled as a
numeric timestamp. -/
structure Lesson where
  id : String
  topic : String
  icon : String
  sections : List ParagraphSection
  createdAt : Nat
deriving DecidableEq

/-- The `VoiceOption` string union from `lessonStore.ts`. -/
inductive VoiceOption where
  | alloy | echo | fable | onyx | nova | shimmer
deriving DecidableEq

/-- The identifier string of a voice (the `id` field of `VOICE_OPTIONS`). -/
def VoiceOption.id : VoiceOption → String
  | .alloy => "alloy"
  | .echo => "echo"
  | .fable => "fable"
  | .onyx => "onyx"
  | .nova => "nova"
  | .shimmer => "shimmer"

/-- JavaScript's `String.prototype.toLowerCase()`, modelled at the
character-list level (`Char.toLower` on every character, which covers the
ASCII range used by topic names). -/
def jsToLower (s : String) : String := ⟨s.data.map Char.toLower⟩

/-- JavaScript `Map.get`: the value stored at key `k`, if any.  A JS `Map`
with string keys is modelled as an association list without duplicate keys;
since every write goes through `mapSet`, lookup of the first matching entry
is faithful. -/
def mapGet {α : Type} (m : List (String × α)) (k : String) : Option α :=
  (m.find? (fun p => p.1 = k)).map Prod.snd

/-- JavaScript `Map.set`: overwrite the value at an existing key in place
(keeping insertion order), otherwise append a new entry. -/
def mapSet {α : Type} (m : List (String × α)) (k : String) (v : α) :
    List (String × α) :=
  if m.any (fun p => p.1 = k) then
    m.map (fun p => if p.1 = k then (k, v) else p)
  else
    m ++ [(k, v)]

theorem find?_overwrite {α : Type} (m : List (String × α)) (k : String) (v : α)
    (h : m.any (fun p => p.1 = k) = true) :
    (m.map (fun p => if p.1 = k then (k, v) else p)).find? (fun p => p.1 = k)
      = some (k, v) := by
  induction m with
  | nil => simp at h
  | cons p m ih =>
    by_cases hp : p.1 = k
    · simp [List.find?, hp]
    · simp only [List.any_cons, Bool.or_eq_true, decide_eq_true_eq] at h
      rcases h with h | h
      · exact absurd h hp
      · simp only [List.map_cons, if_neg hp]
        rw [List.find?_cons_of_neg]
        · exact ih h
        · simpa using hp

theorem find?_overwrite_ne {α : Type} (m : List (String × α)) (k k' : String) (v : α)
    (h : k ≠ k') :
    (m.map (fun p => if p.1 = k then (k, v) else p)).find? (fun p => p.1 = k')
      = m.find? (fun p => p.1 = k') := by
  induction m with
  | nil => rfl
  | cons p m ih =>
    by_cases hp : p.1 = k
    · simp only [List.map_cons, if_pos hp]
      rw [List.find?_cons_of_neg, List.find?_cons_of_neg]
      · exact ih
      · simp only [decide_eq_true_eq]
        exact fun h' => h (hp ▸ h')
      · simpa using h
    · simp only [List.map_cons, if_neg hp]
      by_cases hp' : p.1 = k'
      · rw [List.find?_cons_of_pos, List.find?_cons_of_pos] <;> simpa
      · rw [List.find?_cons_of_neg, List.find?_cons_of_neg]
        · exact ih
        · simpa using hp'
        · simpa using hp'

theorem mapGet_mapSet_self {α : Type} (m : List (String × α)) (k : String) (v : α) :
    mapGet (mapSet m k v) k = some v := by
  unfold mapGet mapSet
  by_cases h : m.any (fun p => p.1 = k) = true
  · rw [if_pos h, find?_overwrite m k v h]
    rfl
  · rw [if_neg h, List.find?_append]
    have hnone : m.find? (fun p => p.1 = k) = none := by
      rw [List.find?_eq_none]
      intro p hp
      simp only [decide_eq_true_eq]
      intro hk
      exact h (List.any_eq_true.mpr ⟨p, hp, by simpa using hk⟩)
    simp [hnone, List.find?]

theorem mapGet_mapSet_ne {α : Type} (m : List (String × α)) (k k' : String) (v : α)
    (h : k ≠ k') : mapGet (mapSet m k v) k' = mapGet m k' := by
  unfold mapGet mapSet
  by_cases hm : m.any (fun p => p.1 = k) = true
  · rw [if_pos hm, find?_overwrite_ne m k k' v h]
  · rw [if_neg hm, List.find?_append]
    rcases hf : m.find? (fun p => p.1 = k') with _ | p
    · simp only [hf, Option.none_or]
      rw [List.find?_singleton, if_neg (by simpa using h)]
    · simp [hf]

/-- The shape of the module-level `globalState` object in `lessonStore.ts`. -/
structure GlobalState where
  currentLesson : Option Lesson
  currentLessonIndex : Nat
  lessonCache : List (String × List Lesson)
  recentTopics : List String
  apiKey : String
  selectedVoice : VoiceOption
  isLoading : Bool
  isExtending : Bool
  error : Option String
  version : Nat
deriving DecidableEq

/-- The initial `globalState` value. -/
def initialState : GlobalState where
  currentLesson := none
  currentLessonIndex := 0
  lessonCache := []
  recentTopics := []
  apiKey := ""
  selectedVoice := .alloy
  isLoading := false
  isExtending := false
  error := none
  version := 0

/-- The lessons cached for a topic: `lessonCache.get(topic) || []`. -/
def cachedLessons (st : GlobalState) (topic : String) : List Lesson :=
  (mapGet st.lessonCache topic).getD []

/-- `setCurrentLesson` from `lessonStore.ts`: upsert by `id` into the
per-topic cache (key = lowercased topic) when the argument is non-null,
clear the current lesson and reset the index when it is null; always ends
in `notifyListeners` (version bump). -/
def setCurrentLesson (st : GlobalState) (lesson : Option Lesson) : GlobalState :=
  match lesson with
  | some l =>
    let topic := jsToLower l.topic
    let existingLessons := cachedLessons st topic
    match existingLessons.findIdx? (fun x => x.id = l.id) with
    | none =>
      let updatedLessons := existingLessons ++ [l]
      { st with
        lessonCache := mapSet st.lessonCache topic updatedLessons
        currentLesson := some l
        currentLessonIndex := updatedLessons.length - 1
        version := st.version + 1 }
    | some i =>
      { st with
        lessonCache := mapSet st.lessonCache topic (existingLessons.set i l)
        currentLesson := some l
        currentLessonIndex := i
        version := st.version + 1 }
  | none =>
    { st with
      currentLesson := none
      currentLessonIndex := 0
      version := st.version + 1 }

/-- `addNewLessonToCache` from `lessonStore.ts`: unconditionally append to
the topic's cache and select the new last index. -/
def addNewLessonToCache (st : GlobalState) (l : Lesson) : GlobalState :=
  let topic := jsToLower l.topic
  let updatedLessons := cachedLessons st topic ++ [l]
  { st with
    lessonCache := mapSet st.lessonCache topic updatedLessons
    currentLesson := some l
    currentLessonIndex := updatedLessons.length - 1
    version := st.version + 1 }

/-- `switchToLesson` from `lessonStore.ts`.  The source also rejects a
negative index; a `Nat` index covers exactly the remaining cases. -/
def switchToLesson (st : GlobalState) (index : Nat) : GlobalState :=
  match st.currentLesson with
  | none => st
  | some cl =>
    let lessons := cachedLessons st (jsToLower cl.topic)
    match lessons[index]? with
    | some l =>
      { st with
        currentLesson := some l
        currentLessonIndex := index
        version := st.version + 1 }
    | none => st

/-- `addRecentTopic` from `lessonStore.ts`: exact-match de-duplication,
move to front, truncate to 10. -/
def addRecentTopic (st : GlobalState) (topic : String) : GlobalState :=
  { st with
    recentTopics := (topic :: st.recentTopics.filter (fun t => t ≠ topic)).take 10
    version := st.version + 1 }

/-- `setApiKey` from `lessonStore.ts`. -/
def setApiKey (st : GlobalState) (key : String) : GlobalState :=
  { st with apiKey := key, version := st.version + 1 }

/-- `setSelectedVoice` from `lessonStore.ts`. -/
def setSelectedVoice (st : GlobalState) (voice : VoiceOption) : GlobalState :=
  { st with selectedVoice := voice, version := st.version + 1 }

/-- `setIsLoading` from `lessonStore.ts`. -/
def setIsLoading (st : GlobalState) (loading : Bool) : GlobalState :=
  { st with isLoading := loading, version := st.version + 1 }

/-- `setIsExtending` from `lessonStore.ts`. -/
def setIsExtending (st : GlobalState) (extending : Bool) : GlobalState :=
  { st with isExtending := extending, version := st.version + 1 }

/-- `setError` from `lessonStore.ts`. -/
def setError (st : GlobalState) (e : Option String) : GlobalState :=
  { st with error := e, version := st.version + 1 }

/-- `addSection` from `lessonStore.ts`: a silent no-op (before any mutation
or notification) when `currentLesson` is null; otherwise append the section
to the current lesson and, when a cached lesson with the same `id` exists
under the lowercased topic key, write the updated lesson back at that
index. -/
def addSection (st : GlobalState) (sec : ParagraphSection) : GlobalState :=
  match st.currentLesson with
  | none => st
  | some cl =>
    let updatedLesson := { cl with sections := cl.sections ++ [sec] }
    let topic := jsToLower updatedLesson.topic
    let existingLessons := cachedLessons st topic
    let cache :=
      match existingLessons.findIdx? (fun x => x.id = updatedLesson.id) with
      | some i => mapSet st.lessonCache topic (existingLessons.set i updatedLesson)
      | none => st.lessonCache
    { st with
      currentLesson := some updatedLesson
      lessonCache := cache
      version := st.version + 1 }

/-- `clearLesson` from `lessonStore.ts`: clears the current lesson, the
index and the error, leaving the topic cache alone. -/
def clearLesson (st : GlobalState) : GlobalState :=
  { st with
    currentLesson := none
    currentLessonIndex := 0
    error := none
    version := st.version + 1 }

/-! ## Example fixtures used by witnesses -/

/-- A sample first section. -/
def exSection1 : ParagraphSection :=
  { paragraph := "Hello airport.", words := [{ word := "airport", phonetic := "erport" }] }

/-- A sample second section. -/
def exSection2 : ParagraphSection :=
  { paragraph := "A second paragraph.", words := [{ word := "second", phonetic := "seknd" }] }

/-- A sample lesson. -/
def exLesson : Lesson :=
  { id := "l1", topic := "Travel", icon := "globe", sections := [exSection1], createdAt := 0 }

/-- The store after making `exLesson` current from the initial state. -/
def exState : GlobalState := setCurrentLesson initialState (some exLesson)

/-! ## Claim C1: addSection behaviour -/

/-- Claim C1: for every `ParagraphSection`, calling `addSection` when
`currentLesson` is null leaves the entire store state unchanged (a silent
no-op); when `currentLesson` is non-null it replaces `currentLesson` with a
lesson whose sections equal the old sections with the new section appended
at the end and, if a lesson with the same id exists in `lessonCache` at the
lowercased topic key, writes the updated lesson back at that existing
index; if no lesson with that id is found the cache is left unchanged while
`currentLesson` is still updated. -/
theorem C1_addSection_behavior (st : GlobalState) (sec : ParagraphSection) :
    (st.currentLesson = none → addSection st sec = st) ∧
    (∀ cl, st.currentLesson = some cl →
      (addSection st sec).currentLesson
          = some { cl with sections := cl.sections ++ [sec] } ∧
      (addSection st sec).currentLessonIndex = st.currentLessonIndex ∧
      (∀ i, (cachedLessons st (jsToLower cl.topic)).findIdx?
            (fun x => x.id = cl.id) = some i →
        (addSection st sec).lessonCache
          = mapSet st.lessonCache (jsToLower cl.topic)
              ((cachedLessons st (jsToLower cl.topic)).set i
                { cl with sections := cl.sections ++ [sec] })) ∧
      ((cachedLessons st (jsToLower cl.topic)).findIdx?
            (fun x => x.id = cl.id) = none →
        (addSection st sec).lessonCache = st.lessonCache)) := by
  constructor
  · intro h
    unfold addSection
    rw [h]
  · intro cl hcl
    refine ⟨?_, ?_, ?_, ?_⟩
    · unfold addSection
      rw [hcl]
    · unfold addSection
      rw [hcl]
    · intro i hi
      unfold addSection
      rw [hcl]
      simp only [hi]
    · intro hnone
      unfold addSection
      rw [hcl]
      simp only [hnone]

/-- Witness for C1 at a concrete store state. -/
theorem C1_addSection_behavior_witness :
    (addSection exState exSection2).currentLesson
      = some { exLesson with sections := exLesson.sections ++ [exSection2] } :=
  ((C1_addSection_behavior exState exSection2).2 exLesson rfl).1

/-! ## Claim C10: frame property of setCurrentLesson(null) -/

/-- Claim C10: `setCurrentLesson null` changes only `currentLesson` (to
null), `currentLessonIndex` (to 0) and the version counter; `lessonCache`,
`recentTopics`, `apiKey`, `selectedVoice`, `isLoading`, `isExtending` and
`error` are all left unchanged — in particular, unlike `clearLesson`, it
does not reset the `error` field to null. -/
theorem C10_setCurrentLesson_none_frame (st : GlobalState) :
    setCurrentLesson st none
      = { st with currentLesson := none, currentLessonIndex := 0,
                  version := st.version + 1 } ∧
    (setCurrentLesson st none).lessonCache = st.lessonCache ∧
    (setCurrentLesson st none).recentTopics = st.recentTopics ∧
    (setCurrentLesson st none).apiKey = st.apiKey ∧
    (setCurrentLesson st none).selectedVoice = st.selectedVoice ∧
    (setCurrentLesson st none).isLoading = st.isLoading ∧
    (setCurrentLesson st none).isExtending = st.isExtending ∧
    (setCurrentLesson st none).error = st.error ∧
    (clearLesson st).error = none :=
  ⟨rfl, rfl, rfl, rfl, rfl, rfl, rfl, rfl, rfl⟩

/-! ## Claim C5: setCurrentLesson behaviour -/

/-- Claim C5: `setCurrentLesson` with a non-null lesson upserts it into the
per-topic cache keyed by the lowercased topic, by id — replacing in place
at the existing index and selecting that index when a cached lesson with
the same id exists, appending and selecting the new last index otherwise —
while `setCurrentLesson null` clears `currentLesson` and resets the index
to 0; in every case the version counter increments by exactly one (the
store notifies subscribers exactly once per `notifyListeners` call, which
is where the counter is bumped). -/
theorem C5_setCurrentLesson_spec (st : GlobalState) (l : Lesson) :
    (∀ i, (cachedLessons st (jsToLower l.topic)).findIdx?
          (fun x => x.id = l.id) = some i →
      setCurrentLesson st (some l)
        = { st with
              lessonCache := mapSet st.lessonCache (jsToLower l.topic)
                ((cachedLessons st (jsToLower l.topic)).set i l)
              currentLesson := some l
              currentLessonIndex := i
              version := st.version + 1 }) ∧
    ((cachedLessons st (jsToLower l.topic)).findIdx?
          (fun x => x.id = l.id) = none →
      setCurrentLesson st (some l)
        = { st with
              lessonCache := mapSet st.lessonCache (jsToLower l.topic)
                (cachedLessons st (jsToLower l.topic) ++ [l])
              currentLesson := some l
              currentLessonIndex := (cachedLessons st (jsToLower l.topic)).length
              version := st.version + 1 }) ∧
    setCurrentLesson st none
      = { st with currentLesson := none, currentLessonIndex := 0,
                  version := st.version + 1 } ∧
    (setCurrentLesson st (some l)).version = st.version + 1 ∧
    (setCurrentLesson st none).version = st.version + 1 := by
  refine ⟨?_, ?_, rfl, ?_, rfl⟩
  · intro i hi
    unfold setCurrentLesson
    simp only [hi]
  · intro hnone
    unfold setCurrentLesson
    simp only [hnone, List.length_append, List.length_singleton,
      Nat.add_sub_cancel]
  · unfold setCurrentLesson
    rcases hf : (cachedLessons st (jsToLower l.topic)).findIdx?
        (fun x => x.id = l.id) with _ | i
    · simp only [hf]
    · simp only [hf]

/-- Witness for C5 at a concrete store state (the no-match branch from the
initial state, followed by the match branch at index 0). -/
theorem C5_setCurrentLesson_spec_witness :
    setCurrentLesson exState (some exLesson)
      = { exState with
            lessonCache := mapSet exState.lessonCache (jsToLower exLesson.topic)
              ((cachedLessons exState (jsToLower exLesson.topic)).set 0 exLesson)
            currentLesson := some exLesson
            currentLessonIndex := 0
            version := exState.version + 1 } :=
  (C5_setCurrentLesson_spec exState exLesson).1 0 (by decide)

/-! ## Claim C9: recent topics -/

/-- Apply `addRecentTopic` once per topic, in order. -/
def addTopics (st : GlobalState) (ts : List String) : GlobalState :=
  ts.foldl addRecentTopic st

theorem take_append_left {α : Type} (l₁ l₂ : List α) (n : Nat) (h : n ≤ l₁.length) :
    (l₁ ++ l₂).take n = l₁.take n := by
  have h1 := List.take_take n l₁.length (l₁ ++ l₂)
  rw [List.take_left, Nat.min_eq_left h] at h1
  exact h1.symm

theorem addRecentTopic_length_le (st : GlobalState) (t : String) :
    (addRecentTopic st t).recentTopics.length ≤ 10 := by
  simp only [addRecentTopic]
  rw [List.length_take]
  exact Nat.min_le_left _ _

theorem addTopics_take (ts : List String) (st : GlobalState)
    (hn : ts.Nodup) (hne : ts ≠ []) :
    (addTopics st ts).recentTopics.take (min ts.length 10) = ts.reverse.take 10 ∧
    (addTopics st ts).recentTopics.length ≤ 10 := by
  induction ts using List.reverseRecOn with
  | nil => exact absurd rfl hne
  | append_singleton xs x ih =>
    have hx : x ∉ xs := by
      simp only [List.nodup_append, List.nodup_cons, List.disjoint_singleton] at hn
      exact fun hmem => hn.2.2 hmem
    have hxs : xs.Nodup := by
      simp only [List.nodup_append] at hn
      exact hn.1
    have hstep : addTopics st (xs ++ [x]) = addRecentTopic (addTopics st xs) x := by
      simp [addTopics, List.foldl_append]
    rcases eq_or_ne xs [] with hnil | hxs_ne
    · subst hnil
      rw [hstep]
      constructor
      · simp only [addRecentTopic, List.nil_append, List.length_singleton,
          List.reverse_singleton, List.take_take]
        norm_num
      · exact addRecentTopic_length_le _ _
    · obtain ⟨hP, hL⟩ := ih hxs hxs_ne
      set L := (addTopics st xs).recentTopics with hLdef
      set P := xs.reverse.take 10 with hPdef
      have hPlen : P.length = min xs.length 10 := by
        rw [hPdef, List.length_take, List.length_reverse, Nat.min_comm]
      have hPmem : ∀ y ∈ P, y ≠ x := by
        intro y hy hyx
        refine hx ?_
        have hyrev : y ∈ xs.reverse := List.take_subset _ _ hy
        rw [List.mem_reverse] at hyrev
        exact hyx ▸ hyrev
      have hsplit : L = P ++ L.drop (min xs.length 10) := by
        conv_lhs => rw [← List.take_append_drop (min xs.length 10) L]
        rw [hP]
      have hfilter : L.filter (fun t => t ≠ x)
          = P ++ (L.drop (min xs.length 10)).filter (fun t => t ≠ x) := by
        conv_lhs => rw [hsplit]
        rw [List.filter_append, List.filter_eq_self.mpr]
        intro a ha
        simpa using hPmem a ha
      have hnew : (addTopics st (xs ++ [x])).recentTopics
          = (x :: (P ++ (L.drop (min xs.length 10)).filter (fun t => t ≠ x))).take 10 := by
        rw [hstep]
        simp only [addRecentTopic]
        rw [hfilter]
      constructor
      · rw [hnew]
        rcases Nat.le_total 9 xs.length with h9 | h9
        · have hm : min (xs ++ [x]).length 10 = 10 := by
            simp only [List.length_append, List.length_singleton]
            omega
          have hm9 : 9 ≤ P.length := by omega
          rw [hm, List.take_take, Nat.min_self,
            show (10 : Nat) = 9 + 1 from rfl, List.take_succ_cons,
            take_append_left _ _ 9 hm9, hPdef, List.take_take]
          simp only [List.reverse_append, List.reverse_singleton,
            List.singleton_append, List.take_succ_cons]
          rw [Nat.min_eq_left (by omega)]
        · have hm : min (xs ++ [x]).length 10 = xs.length + 1 := by
            simp only [List.length_append, List.length_singleton]
            omega
          have hPxs : P.length = xs.length := by omega
          rw [hm, List.take_take, Nat.min_eq_left (by omega),
            List.take_succ_cons, take_append_left _ _ xs.length (by omega),
            List.take_of_length_le (by omega)]
          simp only [List.reverse_append, List.reverse_singleton,
            List.singleton_append, List.take_succ_cons]
          rw [hPdef, List.take_of_length_le (by rw [List.length_reverse]; omega),
            List.take_of_length_le (by rw [List.length_reverse]; omega)]
      · rw [hstep]
        exact addRecentTopic_length_le _ _

/-- Claim C9: `addRecentTopic` removes any existing exact-match occurrence,
places the topic at index 0 and truncates to at most 10 entries; after
adding 15 distinct topics the list has length exactly 10, the most recently
added topic is at index 0, and the list contains no duplicates. -/
theorem C9_addRecentTopic_spec (st : GlobalState) (t : String) (ts : List String) :
    (addRecentTopic st t).recentTopics
        = (t :: st.recentTopics.filter (fun x => x ≠ t)).take 10 ∧
    (ts.Nodup → ts.length = 15 →
      (addTopics st ts).recentTopics.length = 10 ∧
      (addTopics st ts).recentTopics.head? = ts.getLast? ∧
      (addTopics st ts).recentTopics.Nodup) := by
  refine ⟨rfl, ?_⟩
  intro hn hlen
  have hne : ts ≠ [] := by
    intro h
    rw [h] at hlen
    simp at hlen
  obtain ⟨hP, hL⟩ := addTopics_take ts st hn hne
  rw [hlen] at hP
  have h1510 : min 15 10 = 10 := by norm_num
  rw [h1510] at hP
  have hlen10 : 10 ≤ (addTopics st ts).recentTopics.length := by
    have hlen' := congrArg List.length hP
    rw [List.length_take, List.length_take, List.length_reverse, hlen] at hlen'
    omega
  have hfinal : (addTopics st ts).recentTopics = ts.reverse.take 10 := by
    rw [← hP, List.take_of_length_le (by omega)]
  refine ⟨?_, ?_, ?_⟩
  · rw [hfinal, List.length_take, List.length_reverse, hlen]
    norm_num
  · rw [hfinal, ← List.head?_reverse]
    rcases hrev : ts.reverse with _ | ⟨a, rest⟩
    · exact absurd (by simpa using congrArg List.reverse hrev) hne
    · rw [List.take_succ_cons]
      rfl
  · rw [hfinal]
    exact ((List.take_sublist _ _).nodup (List.nodup_reverse.mpr hn))

/-- Witness for the 15-distinct-topics scenario of C9. -/
theorem C9_addRecentTopic_spec_witness :
    (addTopics initialState
        ["t1", "t2", "t3", "t4", "t5", "t6", "t7", "t8", "t9", "t10",
         "t11", "t12", "t13", "t14", "t15"]).recentTopics.length = 10 :=
  ((C9_addRecentTopic_spec initialState "t0"
      ["t1", "t2", "t3", "t4", "t5", "t6", "t7", "t8", "t9", "t10",
       "t11", "t12", "t13", "t14", "t15"]).2 (by decide) (by decide)).1

/-! ## Claim C4: cache/lesson consistency invariant -/

/-- Cache/lesson consistency: whenever `currentLesson` is non-null,
`currentLessonIndex` is a valid index into the cache entry for the
lowercased current topic, and the lesson stored there has the same id as
`currentLesson`. -/
def Invariant (st : GlobalState) : Prop :=
  ∀ cl, st.currentLesson = some cl →
    st.currentLessonIndex < (cachedLessons st (jsToLower cl.topic)).length ∧
    ((cachedLessons st (jsToLower cl.topic))[st.currentLessonIndex]?).map Lesson.id
      = some cl.id

/-- Every lesson stored in the cache sits under its own lowercased-topic
key.  The store establishes this with every write; it is the companion
property that lets `switchToLesson` re-key from the selected lesson's own
topic. -/
def WellKeyed (st : GlobalState) : Prop :=
  ∀ k lessons, mapGet st.lessonCache k = some lessons →
    ∀ l ∈ lessons, jsToLower l.topic = k

/-- The conjunction maintained by every store operation. -/
def StoreInv (st : GlobalState) : Prop := Invariant st ∧ WellKeyed st

/-- The store's public mutation operations. -/
inductive StoreOp where
  | setCurrentLesson (l : Option Lesson)
  | addNewLessonToCache (l : Lesson)
  | addSection (sec : ParagraphSection)
  | switchToLesson (i : Nat)
  | addRecentTopic (t : String)
  | setApiKey (k : String)
  | setSelectedVoice (v : VoiceOption)
  | setIsLoading (b : Bool)
  | setIsExtending (b : Bool)
  | setError (e : Option String)
  | clearLesson

/-- Run one store operation. -/
def applyOp (st : GlobalState) : StoreOp → GlobalState
  | .setCurrentLesson l => setCurrentLesson st l
  | .addNewLessonToCache l => addNewLessonToCache st l
  | .addSection sec => addSection st sec
  | .switchToLesson i => switchToLesson st i
  | .addRecentTopic t => addRecentTopic st t
  | .setApiKey k => setApiKey st k
  | .setSelectedVoice v => setSelectedVoice st v
  | .setIsLoading b => setIsLoading st b
  | .setIsExtending b => setIsExtending st b
  | .setError e => setError st e
  | .clearLesson => clearLesson st

/-- Run a sequence of store operations from a state. -/
def runOps (st : GlobalState) (ops : List StoreOp) : GlobalState :=
  ops.foldl applyOp st
theorem invariant_setCurrentLesson_some (st : GlobalState) (l : Lesson) :
    Invariant (setCurrentLesson st (some l)) := by
  intro cl hcl
  unfold setCurrentLesson at hcl ⊢
  rcases hf : (cachedLessons st (jsToLower l.topic)).findIdx? (fun x => x.id = l.id)
      with _ | i
  · simp only [hf] at hcl ⊢
    obtain rfl : l = cl := by simpa using hcl
    unfold cachedLessons
    simp only [mapGet_mapSet_self, Option.getD_some, List.length_append,
      List.length_singleton, Nat.add_sub_cancel]
    refine ⟨by omega, ?_⟩
    rw [List.getElem?_concat_length]
    rfl
  · simp only [hf] at hcl ⊢
    obtain rfl : l = cl := by simpa using hcl
    obtain ⟨hlt, -, -⟩ := List.findIdx?_eq_some_iff_getElem.mp hf
    unfold cachedLessons
    simp only [mapGet_mapSet_self, Option.getD_some, List.length_set]
    refine ⟨hlt, ?_⟩
    rw [List.getElem?_set_self
      (show i < ((mapGet st.lessonCache (jsToLower l.topic)).getD []).length from hlt)]
    rfl

theorem invariant_setCurrentLesson_none (st : GlobalState) :
    Invariant (setCurrentLesson st none) := by
  intro cl hcl
  simp [setCurrentLesson] at hcl

theorem invariant_clearLesson (st : GlobalState) :
    Invariant (clearLesson st) := by
  intro cl hcl
  simp [clearLesson] at hcl

theorem addSection_none (st : GlobalState) (sec : ParagraphSection)
    (h : st.currentLesson = none) : addSection st sec = st := by
  unfold addSection
  rw [h]

theorem addSection_some (st : GlobalState) (sec : ParagraphSection) (cl : Lesson)
    (hcur : st.currentLesson = some cl) (j : Nat)
    (hf : (cachedLessons st (jsToLower cl.topic)).findIdx?
        (fun x => x.id = cl.id) = some j) :
    addSection st sec
      = { st with
            currentLesson := some { cl with sections := cl.sections ++ [sec] }
            lessonCache := mapSet st.lessonCache (jsToLower cl.topic)
              ((cachedLessons st (jsToLower cl.topic)).set j
                { cl with sections := cl.sections ++ [sec] })
            version := st.version + 1 } := by
  unfold addSection
  rw [hcur]
  simp only [hf]

theorem cachedLessons_eq_of_mapSet (st' : GlobalState) (m : List (String × List Lesson))
    (k : String) (v : List Lesson) (h : st'.lessonCache = mapSet m k v) :
    cachedLessons st' k = v := by
  unfold cachedLessons
  rw [h, mapGet_mapSet_self]
  rfl

theorem invariant_of_fields (st' : GlobalState) (cl : Lesson) (k : String)
    (ls : List Lesson) (hcl : st'.currentLesson = some cl)
    (hk : jsToLower cl.topic = k) (hcache : cachedLessons st' k = ls)
    (hlt : st'.currentLessonIndex < ls.length)
    (hid : (ls[st'.currentLessonIndex]?).map Lesson.id = some cl.id) :
    Invariant st' := by
  intro cl' hcl'
  obtain rfl : cl = cl' := by
    rw [hcl] at hcl'
    exact Option.some.inj hcl'
  rw [hk, hcache]
  exact ⟨hlt, hid⟩

theorem invariant_addSection (st : GlobalState) (sec : ParagraphSection)
    (h : Invariant st) : Invariant (addSection st sec) := by
  rcases hcur : st.currentLesson with _ | cl
  · rw [addSection_none st sec hcur]
    exact h
  · obtain ⟨hlt, hid⟩ := h cl hcur
    obtain ⟨x, hx, hxid⟩ :
        ∃ x, (cachedLessons st (jsToLower cl.topic))[st.currentLessonIndex]? = some x
          ∧ x.id = cl.id := by
      rcases hget : (cachedLessons st (jsToLower cl.topic))[st.currentLessonIndex]?
          with _ | x
      · rw [hget] at hid
        simp at hid
      · rw [hget] at hid
        exact ⟨x, rfl, by simpa using hid⟩
    have hmem : x ∈ cachedLessons st (jsToLower cl.topic) := List.getElem?_mem hx
    obtain ⟨j, hfj⟩ :
        ∃ j, (cachedLessons st (jsToLower cl.topic)).findIdx?
          (fun y => y.id = cl.id) = some j :=
      ⟨_, List.findIdx?_eq_some_of_exists ⟨x, hmem, by simpa using hxid⟩⟩
    refine invariant_of_fields _ { cl with sections := cl.sections ++ [sec] }
      (jsToLower cl.topic)
      ((cachedLessons st (jsToLower cl.topic)).set j
        { cl with sections := cl.sections ++ [sec] })
      ?_ rfl ?_ ?_ ?_
    · rw [addSection_some st sec cl hcur j hfj]
    · exact cachedLessons_eq_of_mapSet _ st.lessonCache _ _
        (by rw [addSection_some st sec cl hcur j hfj])
    · rw [addSection_some st sec cl hcur j hfj]
      show st.currentLessonIndex < _
      rw [List.length_set]
      exact hlt
    · rw [addSection_some st sec cl hcur j hfj]
      show (((cachedLessons st (jsToLower cl.topic)).set j
          { cl with sections := cl.sections ++ [sec] })[st.currentLessonIndex]?).map
            Lesson.id = some ({ cl with sections := cl.sections ++ [sec] } : Lesson).id
      by_cases hij : j = st.currentLessonIndex
      · subst hij
        rw [List.getElem?_set_self hlt]
        rfl
      · rw [List.getElem?_set_ne hij]
        exact hid

theorem switchToLesson_none (st : GlobalState) (i : Nat)
    (h : st.currentLesson = none) : switchToLesson st i = st := by
  unfold switchToLesson
  rw [h]

theorem switchToLesson_out_of_range (st : GlobalState) (i : Nat) (cl : Lesson)
    (hcur : st.currentLesson = some cl)
    (hget : (cachedLessons st (jsToLower cl.topic))[i]? = none) :
    switchToLesson st i = st := by
  unfold switchToLesson
  rw [hcur]
  simp only [hget]

theorem switchToLesson_in_range (st : GlobalState) (i : Nat) (cl l : Lesson)
    (hcur : st.currentLesson = some cl)
    (hget : (cachedLessons st (jsToLower cl.topic))[i]? = some l) :
    switchToLesson st i
      = { st with
            currentLesson := some l
            currentLessonIndex := i
            version := st.version + 1 } := by
  unfold switchToLesson
  rw [hcur]
  simp only [hget]

theorem wellKeyed_cachedLessons (st : GlobalState) (k : String) (hw : WellKeyed st) :
    ∀ l ∈ cachedLessons st k, jsToLower l.topic = k := by
  intro l hl
  unfold cachedLessons at hl
  rcases hmg : mapGet st.lessonCache k with _ | ls
  · rw [hmg] at hl
    simp at hl
  · rw [hmg] at hl
    exact hw k ls hmg l (by simpa using hl)

theorem invariant_switchToLesson (st : GlobalState) (i : Nat)
    (h : Invariant st) (hw : WellKeyed st) : Invariant (switchToLesson st i) := by
  rcases hcur : st.currentLesson with _ | cl
  · rw [switchToLesson_none st i hcur]
    exact h
  · rcases hget : (cachedLessons st (jsToLower cl.topic))[i]? with _ | l
    · rw [switchToLesson_out_of_range st i cl hcur hget]
      exact h
    · have hkey : jsToLower l.topic = jsToLower cl.topic :=
        wellKeyed_cachedLessons st _ hw l (List.getElem?_mem hget)
      refine invariant_of_fields _ l (jsToLower cl.topic)
        (cachedLessons st (jsToLower cl.topic)) ?_ hkey ?_ ?_ ?_
      · rw [switchToLesson_in_range st i cl l hcur hget]
      · rw [switchToLesson_in_range st i cl l hcur hget]
        unfold cachedLessons
        rfl
      · rw [switchToLesson_in_range st i cl l hcur hget]
        show i < _
        exact (List.getElem?_eq_some_iff.mp hget).1
      · rw [switchToLesson_in_range st i cl l hcur hget]
        show ((cachedLessons st (jsToLower cl.topic))[i]?).map Lesson.id = some l.id
        rw [hget]
        rfl

theorem setCurrentLesson_insert (st : GlobalState) (l : Lesson)
    (hf : (cachedLessons st (jsToLower l.topic)).findIdx?
        (fun x => x.id = l.id) = none) :
    setCurrentLesson st (some l)
      = { st with
            lessonCache := mapSet st.lessonCache (jsToLower l.topic)
              (cachedLessons st (jsToLower l.topic) ++ [l])
            currentLesson := some l
            currentLessonIndex := (cachedLessons st (jsToLower l.topic) ++ [l]).length - 1
            version := st.version + 1 } := by
  unfold setCurrentLesson
  simp only [hf]

theorem setCurrentLesson_upsert (st : GlobalState) (l : Lesson) (i : Nat)
    (hf : (cachedLessons st (jsToLower l.topic)).findIdx?
        (fun x => x.id = l.id) = some i) :
    setCurrentLesson st (some l)
      = { st with
            lessonCache := mapSet st.lessonCache (jsToLower l.topic)
              ((cachedLessons st (jsToLower l.topic)).set i l)
            currentLesson := some l
            currentLessonIndex := i
            version := st.version + 1 } := by
  unfold setCurrentLesson
  simp only [hf]

theorem addSection_noCache (st : GlobalState) (sec : ParagraphSection) (cl : Lesson)
    (hcur : st.currentLesson = some cl)
    (hf : (cachedLessons st (jsToLower cl.topic)).findIdx?
        (fun x => x.id = cl.id) = none) :
    addSection st sec
      = { st with
            currentLesson := some { cl with sections := cl.sections ++ [sec] }
            version := st.version + 1 } := by
  unfold addSection
  rw [hcur]
  simp only [hf]

theorem wellKeyed_mapSet (st : GlobalState) (key : String) (newList : List Lesson)
    (hw : WellKeyed st) (hnew : ∀ l ∈ newList, jsToLower l.topic = key)
    (st' : GlobalState)
    (hcache : st'.lessonCache = mapSet st.lessonCache key newList) :
    WellKeyed st' := by
  intro k lessons hget l hl
  rw [hcache] at hget
  by_cases hk : key = k
  · subst hk
    rw [mapGet_mapSet_self] at hget
    obtain rfl : newList = lessons := Option.some.inj hget
    exact hnew l hl
  · rw [mapGet_mapSet_ne _ _ _ _ hk] at hget
    exact hw k lessons hget l hl

theorem wellKeyed_of_same (st st' : GlobalState)
    (h : st'.lessonCache = st.lessonCache) (hw : WellKeyed st) : WellKeyed st' := by
  intro k lessons hget
  rw [h] at hget
  exact hw k lessons hget

theorem invariant_addNewLessonToCache (st : GlobalState) (l : Lesson) :
    Invariant (addNewLessonToCache st l) := by
  refine invariant_of_fields _ l (jsToLower l.topic)
    (cachedLessons st (jsToLower l.topic) ++ [l]) rfl rfl ?_ ?_ ?_
  · exact cachedLessons_eq_of_mapSet _ st.lessonCache _ _ rfl
  · show (cachedLessons st (jsToLower l.topic) ++ [l]).length - 1 < _
    simp only [List.length_append, List.length_singleton]
    omega
  · show ((cachedLessons st (jsToLower l.topic)
        ++ [l])[(cachedLessons st (jsToLower l.topic) ++ [l]).length - 1]?).map
          Lesson.id = some l.id
    rw [show (cachedLessons st (jsToLower l.topic) ++ [l]).length - 1
        = (cachedLessons st (jsToLower l.topic)).length by simp]
    rw [List.getElem?_concat_length]
    rfl

theorem wellKeyed_addNewLessonToCache (st : GlobalState) (l : Lesson)
    (hw : WellKeyed st) : WellKeyed (addNewLessonToCache st l) := by
  refine wellKeyed_mapSet st (jsToLower l.topic)
    (cachedLessons st (jsToLower l.topic) ++ [l]) hw ?_ _ rfl
  intro y hy
  rcases List.mem_append.mp hy with hy | hy
  · exact wellKeyed_cachedLessons st _ hw y hy
  · obtain rfl : y = l := by simpa using hy
    rfl

theorem wellKeyed_setCurrentLesson (st : GlobalState) (lo : Option Lesson)
    (hw : WellKeyed st) : WellKeyed (setCurrentLesson st lo) := by
  rcases lo with _ | l
  · exact wellKeyed_of_same st _ rfl hw
  · rcases hf : (cachedLessons st (jsToLower l.topic)).findIdx?
        (fun x => x.id = l.id) with _ | i
    · refine wellKeyed_mapSet st (jsToLower l.topic)
        (cachedLessons st (jsToLower l.topic) ++ [l]) hw ?_ _ ?_
      · intro y hy
        rcases List.mem_append.mp hy with hy | hy
        · exact wellKeyed_cachedLessons st _ hw y hy
        · obtain rfl : y = l := by simpa using hy
          rfl
      · rw [setCurrentLesson_insert st l hf]
    · refine wellKeyed_mapSet st (jsToLower l.topic)
        ((cachedLessons st (jsToLower l.topic)).set i l) hw ?_ _ ?_
      · intro y hy
        rcases List.mem_or_eq_of_mem_set hy with hy | rfl
        · exact wellKeyed_cachedLessons st _ hw y hy
        · rfl
      · rw [setCurrentLesson_upsert st l i hf]

theorem wellKeyed_addSection (st : GlobalState) (sec : ParagraphSection)
    (hw : WellKeyed st) : WellKeyed (addSection st sec) := by
  rcases hcur : st.currentLesson with _ | cl
  · rw [addSection_none st sec hcur]
    exact hw
  · rcases hf : (cachedLessons st (jsToLower cl.topic)).findIdx?
        (fun x => x.id = cl.id) with _ | j
    · rw [addSection_noCache st sec cl hcur hf]
      exact wellKeyed_of_same st _ rfl hw
    · refine wellKeyed_mapSet st (jsToLower cl.topic)
        ((cachedLessons st (jsToLower cl.topic)).set j
          { cl with sections := cl.sections ++ [sec] }) hw ?_ _ ?_
      · intro y hy
        rcases List.mem_or_eq_of_mem_set hy with hy | rfl
        · exact wellKeyed_cachedLessons st _ hw y hy
        · rfl
      · rw [addSection_some st sec cl hcur j hf]

theorem wellKeyed_switchToLesson (st : GlobalState) (i : Nat)
    (hw : WellKeyed st) : WellKeyed (switchToLesson st i) := by
  rcases hcur : st.currentLesson with _ | cl
  · rw [switchToLesson_none st i hcur]
    exact hw
  · rcases hget : (cachedLessons st (jsToLower cl.topic))[i]? with _ | l
    · rw [switchToLesson_out_of_range st i cl hcur hget]
      exact hw
    · rw [switchToLesson_in_range st i cl l hcur hget]
      exact wellKeyed_of_same st _ rfl hw

theorem storeInv_initial : StoreInv initialState := by
  constructor
  · intro cl hcl
    simp [initialState] at hcl
  · intro k lessons hget
    simp [initialState, mapGet] at hget

theorem storeInv_applyOp (st : GlobalState) (h : StoreInv st) (op : StoreOp) :
    StoreInv (applyOp st op) := by
  obtain ⟨hi, hw⟩ := h
  cases op with
  | setCurrentLesson lo =>
    rcases lo with _ | l
    · exact ⟨invariant_setCurrentLesson_none st,
        wellKeyed_setCurrentLesson st none hw⟩
    · exact ⟨invariant_setCurrentLesson_some st l,
        wellKeyed_setCurrentLesson st (some l) hw⟩
  | addNewLessonToCache l =>
    exact ⟨invariant_addNewLessonToCache st l,
      wellKeyed_addNewLessonToCache st l hw⟩
  | addSection sec =>
    exact ⟨invariant_addSection st sec hi, wellKeyed_addSection st sec hw⟩
  | switchToLesson i =>
    exact ⟨invariant_switchToLesson st i hi hw, wellKeyed_switchToLesson st i hw⟩
  | addRecentTopic t => exact ⟨fun cl hcl => hi cl hcl, fun k ls hg => hw k ls hg⟩
  | setApiKey k => exact ⟨fun cl hcl => hi cl hcl, fun k ls hg => hw k ls hg⟩
  | setSelectedVoice v => exact ⟨fun cl hcl => hi cl hcl, fun k ls hg => hw k ls hg⟩
  | setIsLoading b => exact ⟨fun cl hcl => hi cl hcl, fun k ls hg => hw k ls hg⟩
  | setIsExtending b => exact ⟨fun cl hcl => hi cl hcl, fun k ls hg => hw k ls hg⟩
  | setError e => exact ⟨fun cl hcl => hi cl hcl, fun k ls hg => hw k ls hg⟩
  | clearLesson => exact ⟨invariant_clearLesson st, fun k ls hg => hw k ls hg⟩

theorem storeInv_runOps (ops : List StoreOp) (st : GlobalState) (h : StoreInv st) :
    StoreInv (runOps st ops) := by
  induction ops generalizing st with
  | nil => exact h
  | cons op ops ih => exact ih (applyOp st op) (storeInv_applyOp st h op)

/-- Claim C4: the cache/lesson consistency invariant — whenever
`currentLesson` is non-null, `currentLessonIndex` is a valid index into
`lessonCache.get` at the lowercased current topic and the lesson stored at
that index has the same id as `currentLesson` — is preserved by every store
operation (`setCurrentLesson`, `addNewLessonToCache`, `addSection`,
`switchToLesson`, `clearLesson` and the field setters), and therefore holds
in every state the store can reach from its initial state through its
operations.  (`StoreInv` conjoins the invariant with the companion
well-keyedness property the store also maintains; it is the inductive
strengthening that makes `switchToLesson` preservable.) -/
theorem C4_invariant_preserved :
    (∀ st, StoreInv st → ∀ op, StoreInv (applyOp st op)) ∧
    (∀ ops, Invariant (runOps initialState ops)) :=
  ⟨fun st h op => storeInv_applyOp st h op,
   fun ops => (storeInv_runOps ops initialState storeInv_initial).1⟩

/-- Witness for C4: the invariant holds after a concrete operation
sequence. -/
theorem C4_invariant_preserved_witness :
    Invariant (runOps initialState
      [StoreOp.setCurrentLesson (some exLesson), StoreOp.addSection exSection2,
       StoreOp.switchToLesson 0]) :=
  C4_invariant_preserved.2
    [StoreOp.setCurrentLesson (some exLesson), StoreOp.addSection exSection2,
     StoreOp.switchToLesson 0]

/-! ## Claims C2 and C3: the lesson-extension protocol -/

/-- The extend-lesson response as consumed by `handleExtendLesson` in
`LearnScreen`: `ok` is `response.ok`, `message` is `data.message`,
`paragraph` is `data.paragraph` (absent or null = `none`), `words` is
`data.words` (absent or null = `none`; present-but-empty = `some []`). -/
structure ExtendResponse where
  ok : Bool
  message : Option String
  paragraph : Option String
  words : Option (List WordPhonetic)
deriving DecidableEq

/-- JavaScript truthiness of an optional string field (`undefined`, `null`
and the empty string are falsy). -/
def truthyString : Option String → Bool
  | none => false
  | some s => !s.isEmpty

/-- JavaScript `x || d` for an optional string with a default. -/
def jsOrDefault (o : Option String) (d : String) : String :=
  match o with
  | none => d
  | some s => if s.isEmpty then d else s

/-- The `LearnScreen` component state participating in the extension
protocol, with the store and an instrumentation counter for network
requests to the extend endpoint. -/
structure ExtendState where
  store : GlobalState
  isExtendingLocal : Bool
  extendError : Option String
  extendSuccess : Bool
  requests : Nat
deriving DecidableEq

/-- The synchronous prefix of `handleExtendLesson` — everything up to and
including issuing the network request, which all runs before the first
`await`: the guard `!currentLesson || isExtendingLocal || isExtending`
rejects re-entry as a no-op; otherwise `isExtendingLocal` and the store's
`isExtending` flag are set (synchronously) and the request is issued.
JavaScript's run-to-completion semantics make this block atomic. -/
def extendStart (s : ExtendState) : ExtendState :=
  match s.store.currentLesson with
  | none => s
  | some _ =>
    if s.isExtendingLocal || s.store.isExtending then s
    else
      { s with
        isExtendingLocal := true
        store := setIsExtending s.store true
        extendError := none
        requests := s.requests + 1 }

/-- The resumption of `handleExtendLesson` after its awaits: the `try`
block's response handling — throw on `!response.ok`; accept when
`data.paragraph` and `data.words` are both truthy, appending exactly one
section via `addSection`; otherwise throw the protocol error — then the
`catch` block recording the message and the `finally` block clearing both
extending flags. -/
def extendComplete (s : ExtendState) (r : ExtendResponse) : ExtendState :=
  let s1 :=
    if r.ok = false then
      { s with extendError := some (jsOrDefault r.message "Failed to extend lesson") }
    else if truthyString r.paragraph && r.words.isSome then
      { s with
        store := addSection s.store
          { paragraph := r.paragraph.getD "", words := r.words.getD [] }
        extendSuccess := true }
    else
      { s with extendError := some "Invalid response data - missing paragraph or words" }
  { s1 with store := setIsExtending s1.store false, isExtendingLocal := false }

/-- The sections of the current lesson (empty when there is none). -/
def currentSections (st : GlobalState) : List ParagraphSection :=
  (st.currentLesson.map Lesson.sections).getD []

theorem addSection_currentLesson (st : GlobalState) (sec : ParagraphSection)
    (cl : Lesson) (hcur : st.currentLesson = some cl) :
    (addSection st sec).currentLesson
      = some { cl with sections := cl.sections ++ [sec] } := by
  unfold addSection
  rw [hcur]

theorem currentSections_addSection (st : GlobalState) (sec : ParagraphSection) :
    (currentSections (addSection st sec)).length ≤ (currentSections st).length + 1 := by
  rcases hcur : st.currentLesson with _ | cl
  · rw [addSection_none st sec hcur]
    exact Nat.le_succ _
  · unfold currentSections
    rw [hcur, addSection_currentLesson st sec cl hcur]
    simp

theorem extendStart_currentLesson (s : ExtendState) :
    (extendStart s).store.currentLesson = s.store.currentLesson := by
  unfold extendStart
  rcases hcur : s.store.currentLesson with _ | cl
  · exact hcur
  · by_cases hg : s.isExtendingLocal || s.store.isExtending
    · rw [if_pos hg]
      exact hcur
    · rw [if_neg hg]
      exact hcur

theorem currentSections_extendComplete (s : ExtendState) (r : ExtendResponse) :
    (currentSections (extendComplete s r).store).length
      ≤ (currentSections s.store).length + 1 := by
  unfold extendComplete
  by_cases hok : r.ok = false
  · rw [if_pos hok]
    exact Nat.le_succ _
  · rw [if_neg hok]
    by_cases hacc : (truthyString r.paragraph && r.words.isSome) = true
    · rw [if_pos hacc]
      exact currentSections_addSection s.store _
    · rw [if_neg hacc]
      exact Nat.le_succ _

theorem extendStart_accepted (s : ExtendState) (cl : Lesson)
    (hcur : s.store.currentLesson = some cl) (hl : s.isExtendingLocal = false)
    (hg : s.store.isExtending = false) :
    extendStart s
      = { s with
            isExtendingLocal := true
            store := setIsExtending s.store true
            extendError := none
            requests := s.requests + 1 } := by
  unfold extendStart
  rw [hcur]
  rw [if_neg (by rw [hl, hg]; simp)]

theorem extendStart_rejected (s : ExtendState)
    (h : s.store.currentLesson = none ∨ s.isExtendingLocal = true
      ∨ s.store.isExtending = true) :
    extendStart s = s := by
  unfold extendStart
  rcases hcur : s.store.currentLesson with _ | cl
  · rfl
  · rcases h with h | h | h
    · rw [hcur] at h
      exact absurd h (by simp)
    · rw [if_pos (by rw [h]; simp)]
    · rw [if_pos (by rw [h]; simp)]

/-- Claim C2: a second extend intent issued while an earlier one is still
outstanding (the extending flags set by the first call not yet cleared) is
rejected as a no-op before any asynchronous work; across two extend calls
in rapid succession at most one network request is issued and at most one
section is appended, and the re-entrancy guard is set synchronously (within
the same atomic run-to-completion block as the request, before the first
`await`). -/
theorem C2_extend_reentrancy (s : ExtendState) :
    (extendStart (extendStart s)).requests ≤ s.requests + 1 ∧
    (∀ cl, s.store.currentLesson = some cl → s.isExtendingLocal = false →
        s.store.isExtending = false →
      (extendStart s).isExtendingLocal = true ∧
      (extendStart s).store.isExtending = true ∧
      (extendStart s).requests = s.requests + 1 ∧
      extendStart (extendStart s) = extendStart s) ∧
    (∀ r, (currentSections (extendComplete (extendStart (extendStart s)) r).store).length
      ≤ (currentSections s.store).length + 1) := by
  refine ⟨?_, ?_, ?_⟩
  · by_cases hng : s.store.currentLesson = none ∨ s.isExtendingLocal = true
        ∨ s.store.isExtending = true
    · rw [extendStart_rejected s hng, extendStart_rejected s hng]
      exact Nat.le_succ _
    · push_neg at hng
      obtain ⟨hc, hl, hg⟩ := hng
      rcases hcur : s.store.currentLesson with _ | cl
      · exact absurd hcur hc
      · rw [extendStart_accepted s cl hcur (by simpa using hl) (by simpa using hg),
          extendStart_rejected _ (Or.inr (Or.inl rfl))]
  · intro cl hcur hl hg
    rw [extendStart_accepted s cl hcur hl hg]
    exact ⟨rfl, rfl, rfl, extendStart_rejected _ (Or.inr (Or.inl rfl))⟩
  · intro r
    calc (currentSections (extendComplete (extendStart (extendStart s)) r).store).length
        ≤ (currentSections (extendStart (extendStart s)).store).length + 1 :=
          currentSections_extendComplete _ r
      _ = (currentSections s.store).length + 1 := by
          unfold currentSections
          rw [extendStart_currentLesson, extendStart_currentLesson]

/-- The `LearnScreen` component's extension state right after `exLesson`
becomes the current lesson. -/
def exExtendState : ExtendState :=
  { store := exState
    isExtendingLocal := false
    extendError := none
    extendSuccess := false
    requests := 0 }

/-- Witness for C2: for a concrete accepted first call, the second call is
a strict no-op. -/
theorem C2_extend_reentrancy_witness :
    extendStart (extendStart exExtendState) = extendStart exExtendState :=
  ((C2_extend_reentrancy exExtendState).2.1 exLesson rfl rfl rfl).2.2.2

/-- The response used to refute C3 as stated: `ok`, a non-empty paragraph,
and a words field that is PRESENT but an empty list. -/
def exEmptyWordsResponse : ExtendResponse :=
  { ok := true
    message := none
    paragraph := some "More travel talk."
    words := some [] }

/-- Counterexample to C3 as stated: the code checks `data.words` by
JavaScript truthiness, and an empty array is truthy, so a response carrying
a non-empty paragraph and an EMPTY word list is accepted — a section with
an empty word list is appended and no error is reported — contradicting
"succeeds only if the response contains ... a non-empty word list". -/
theorem C3_counterexample :
    (currentSections (extendComplete (extendStart exExtendState)
          exEmptyWordsResponse).store)
        = [exSection1, { paragraph := "More travel talk.", words := [] }] ∧
    (extendComplete (extendStart exExtendState) exEmptyWordsResponse).extendError
        = none := by
  constructor
  · decide
  · decide

/-- Claim C3 (amended): the extension succeeds — `addSection` invoked
exactly once with the returned paragraph and words — exactly when the
response is `ok` with a truthy (non-empty) paragraph and a words field that
is PRESENT; the truthiness check accepts an empty word list.  Any `ok`
response failing the check is a protocol-level failure: the fixed error
message is reported, no section is appended and the current lesson's
sections are exactly as before; a non-`ok` response likewise appends
nothing and reports the transport error message. -/
theorem C3_extend_response_validation (s : ExtendState) (cl : Lesson)
    (hcur : s.store.currentLesson = some cl) :
    (∀ r : ExtendResponse, r.ok = true → truthyString r.paragraph = true →
        r.words.isSome = true →
      (extendComplete s r).store.currentLesson
          = some { cl with sections := cl.sections
              ++ [{ paragraph := r.paragraph.getD "", words := r.words.getD [] }] } ∧
      (extendComplete s r).extendError = s.extendError) ∧
    (∀ r : ExtendResponse, r.ok = true →
        (truthyString r.paragraph && r.words.isSome) = false →
      (extendComplete s r).store.currentLesson = some cl ∧
      (extendComplete s r).extendError
        = some "Invalid response data - missing paragraph or words") ∧
    (∀ r : ExtendResponse, r.ok = false →
      (extendComplete s r).store.currentLesson = some cl ∧
      (extendComplete s r).extendError
        = some (jsOrDefault r.message "Failed to extend lesson")) := by
  refine ⟨?_, ?_, ?_⟩
  · intro r hok hp hw
    have hcond : (truthyString r.paragraph && r.words.isSome) = true := by
      rw [hp, hw]
      rfl
    unfold extendComplete
    rw [hok, if_neg (by simp), if_pos hcond]
    constructor
    · show (addSection s.store _).currentLesson = _
      exact addSection_currentLesson s.store _ cl hcur
    · rfl
  · intro r hok hcond
    unfold extendComplete
    rw [hok, if_neg (by simp), if_neg (by rw [hcond]; simp)]
    exact ⟨hcur, rfl⟩
  · intro r hok
    unfold extendComplete
    rw [if_pos hok]
    exact ⟨hcur, rfl⟩

/-- Witness for the amended C3 at a concrete accepted response. -/
theorem C3_extend_response_validation_witness :
    (extendComplete exExtendState
        { ok := true, message := none, paragraph := some "P",
          words := some [{ word := "w", phonetic := "f" }] }).store.currentLesson
      = some { exLesson with sections := exLesson.sections
          ++ [{ paragraph := "P", words := [{ word := "w", phonetic := "f" }] }] } := by
  have h := ((C3_extend_response_validation exExtendState exLesson rfl).1
    { ok := true, message := none, paragraph := some "P",
      words := some [{ word := "w", phonetic := "f" }] } rfl rfl rfl).1
  exact h

/-! ## Claim C6: playback coordination (LearnScreen) -/

/-- A second sample lesson with two sections (used to drive the playback
counterexample). -/
def exLesson2 : Lesson :=
  { id := "l2", topic := "Travel", icon := "globe",
    sections := [exSection1, exSection2], createdAt := 0 }

/-- The playback-related component state of `LearnScreen`: the loading and
playing flag of the whole-lesson player, the currently playing word, the
currently playing paragraph index, and the paragraph loading flag. -/
structure PlaybackState where
  isLoadingAudio : Bool
  isPlaying : Bool
  playingWord : Option String
  playingParagraphIndex : Option Nat
  isLoadingParagraphAudio : Bool
deriving DecidableEq

/-- All playback state starts cleared. -/
def initialPlayback : PlaybackState :=
  { isLoadingAudio := false
    isPlaying := false
    playingWord := none
    playingParagraphIndex := none
    isLoadingParagraphAudio := false }

/-- Enabled condition of the whole-lesson Listen button (the negation of
its `disabled` prop). -/
def lessonButtonEnabled (p : PlaybackState) : Bool :=
  !p.isLoadingAudio && !p.isPlaying && p.playingParagraphIndex.isNone
    && p.playingWord.isNone

/-- Enabled condition of a vocabulary chip in section `j` (negation of its
`disabled` prop; the paragraph-related props are computed per section). -/
def wordChipEnabled (p : PlaybackState) (j : Nat) : Bool :=
  p.playingWord.isNone
    && !(p.isLoadingParagraphAudio && p.playingParagraphIndex == some j)
    && !(p.playingParagraphIndex == some j)
    && !p.isPlaying

/-- Enabled condition of the paragraph listen button of section `j`
(negation of its `disabled` prop; the missing-text case is re-checked by
the handler and folded in there). -/
def paragraphButtonEnabled (p : PlaybackState) (j : Nat) : Bool :=
  !(p.isLoadingParagraphAudio && p.playingParagraphIndex == some j)
    && !(p.playingParagraphIndex == some j)
    && !p.isPlaying
    && p.playingWord.isNone

/-- Pressing the whole-lesson Listen button: impossible while the button is
disabled; `handlePlayAudio` itself only re-checks that a lesson with at
least one section exists, then marks loading and issues the speech
request (it contains no playback-exclusion guard of its own). -/
def pressPlayLesson (lesson : Option Lesson) (p : PlaybackState) : PlaybackState :=
  if !lessonButtonEnabled p then p
  else
    match lesson with
    | none => p
    | some l =>
      if l.sections.isEmpty then p
      else { p with isLoadingAudio := true }

/-- Pressing a vocabulary chip in section `j`: impossible while the chip is
disabled; `handlePlayWordAudio` rejects with `if (playingWord) return` and
otherwise marks the word as playing and issues the speech request. -/
def pressPlayWord (p : PlaybackState) (j : Nat) (w : String) : PlaybackState :=
  if !wordChipEnabled p j then p
  else if p.playingWord.isSome then p
  else { p with playingWord := some w }

/-- Pressing the paragraph listen button of section `j`: impossible while
the button is disabled; `handlePlayParagraphAudio` rejects with
`if (playingParagraphIndex !== null || isPlaying) return`, requires a
current lesson and a non-empty paragraph text, then marks the paragraph as
playing/loading and issues the speech request. -/
def pressPlayParagraph (lesson : Option Lesson) (p : PlaybackState) (j : Nat) :
    PlaybackState :=
  if !paragraphButtonEnabled p j then p
  else if p.playingParagraphIndex.isSome || p.isPlaying then p
  else
    match lesson with
    | none => p
    | some l =>
      match (l.sections[j]?).map ParagraphSection.paragraph with
      | none => p
      | some para =>
        if para.isEmpty then p
        else { p with playingParagraphIndex := some j, isLoadingParagraphAudio := true }

/-- Whole-lesson audio finished loading and starts playing. -/
def lessonAudioLoaded (p : PlaybackState) : PlaybackState :=
  { p with isPlaying := true, isLoadingAudio := false }

/-- Paragraph audio finished loading (the paragraph keeps playing). -/
def paragraphAudioLoaded (p : PlaybackState) : PlaybackState :=
  { p with isLoadingParagraphAudio := false }

/-- How many of the three playback indicators are active. -/
def activeIndicators (p : PlaybackState) : Nat :=
  (if p.playingWord.isSome then 1 else 0)
    + (if p.playingParagraphIndex.isSome then 1 else 0)
    + (if p.isPlaying then 1 else 0)

/-- Counterexample to C6 as stated: starting idle, play paragraph 0 of a
two-section lesson and let it load; the vocabulary chips of section 1 are
still enabled (their `disabled` props compare the playing index against
their own section) and `handlePlayWordAudio` checks only `playingWord`, so
a word play request issued while paragraph 0 is playing is accepted rather
than rejected — afterwards two playback indicators are active at once. -/
theorem C6_counterexample :
    activeIndicators (pressPlayWord (paragraphAudioLoaded
        (pressPlayParagraph (some exLesson2) initialPlayback 0)) 1 "second") = 2 ∧
    pressPlayWord (paragraphAudioLoaded
        (pressPlayParagraph (some exLesson2) initialPlayback 0)) 1 "second"
      ≠ paragraphAudioLoaded (pressPlayParagraph (some exLesson2) initialPlayback 0) := by
  constructor
  · decide
  · decide

/-- Claim C6 (amended): the playback guards that do hold — a word play
request is rejected while any word is playing, while the whole lesson is
playing, or while the same section's paragraph is playing or loading; a
paragraph play request is rejected while any paragraph or the lesson is
playing or any word is playing; a whole-lesson play request cannot be
issued while anything is loading or playing.  (What fails, per the
counterexample, is only the word-versus-other-section-paragraph pair and
the word-versus-lesson-still-loading window.) -/
theorem C6_playback_guards (lesson : Option Lesson) (p : PlaybackState)
    (j : Nat) (w : String) :
    (p.playingWord.isSome = true → pressPlayWord p j w = p) ∧
    (p.isPlaying = true → pressPlayWord p j w = p) ∧
    (p.playingParagraphIndex = some j → pressPlayWord p j w = p) ∧
    (p.playingParagraphIndex.isSome = true ∨ p.isPlaying = true
        ∨ p.playingWord.isSome = true →
      pressPlayParagraph lesson p j = p) ∧
    (p.isLoadingAudio = true ∨ p.isPlaying = true
        ∨ p.playingParagraphIndex.isSome = true ∨ p.playingWord.isSome = true →
      pressPlayLesson lesson p = p) := by
  refine ⟨?_, ?_, ?_, ?_, ?_⟩
  · intro h
    simp [pressPlayWord, wordChipEnabled, h]
  · intro h
    simp [pressPlayWord, wordChipEnabled, h]
  · intro h
    simp [pressPlayWord, wordChipEnabled, h]
  · intro h
    rcases h with h | h | h
    · unfold pressPlayParagraph
      by_cases he : paragraphButtonEnabled p j
      · rw [if_neg (by simpa using he), if_pos (by rw [h]; simp)]
      · rw [if_pos (by simpa using he)]
    · unfold pressPlayParagraph
      by_cases he : paragraphButtonEnabled p j
      · rw [if_neg (by simpa using he), if_pos (by rw [h]; simp)]
      · rw [if_pos (by simpa using he)]
    · simp [pressPlayParagraph, paragraphButtonEnabled, h]
  · intro h
    rcases h with h | h | h | h <;> simp [pressPlayLesson, lessonButtonEnabled, h]

/-- Witness for the amended C6: with a word already playing, a second word
play request is a strict no-op. -/
theorem C6_playback_guards_witness :
    pressPlayWord { initialPlayback with playingWord := some "hello" } 0 "other"
      = { initialPlayback with playingWord := some "hello" } :=
  (C6_playback_guards none { initialPlayback with playingWord := some "hello" }
    0 "other").1 rfl

/-! ## Claim C7: the audio cache -/

/-- The audio-cache key from `LearnScreen`: the template string
`voice + ":" + text`. -/
def getAudioCacheKey (text voice : String) : String := voice ++ ":" ++ text

/-- The cache/network behaviour of the native branch of
`handlePlayWordAudio`: the cache is consulted before any request; a hit
reuses the stored file URI with no network call; a miss issues exactly one
request and stores the freshly written file URI under the key.  Returns the
new cache, the URI played, and the number of network calls issued. -/
def playWordAudioFetch (cache : List (String × String))
    (word voice freshUri : String) : List (String × String) × String × Nat :=
  match mapGet cache (getAudioCacheKey word voice) with
  | some uri => (cache, uri, 0)
  | none => (mapSet cache (getAudioCacheKey word voice) freshUri, freshUri, 1)

theorem string_data_inj {s t : String} (h : s.data = t.data) : s = t := by
  rcases s with ⟨a⟩
  rcases t with ⟨b⟩
  cases h
  rfl

theorem getAudioCacheKey_data (t v : String) :
    (getAudioCacheKey t v).data = v.data ++ ':' :: t.data := by
  rcases t with ⟨a⟩
  rcases v with ⟨b⟩
  show (b ++ [':']) ++ a = b ++ ':' :: a
  simp

theorem getAudioCacheKey_inj (t1 t2 : String) (v1 v2 : VoiceOption)
    (h : getAudioCacheKey t1 (VoiceOption.id v1)
        = getAudioCacheKey t2 (VoiceOption.id v2)) :
    t1 = t2 ∧ v1 = v2 := by
  have hd := congrArg String.data h
  rw [getAudioCacheKey_data, getAudioCacheKey_data] at hd
  have ha : "alloy".data = ['a', 'l', 'l', 'o', 'y'] := rfl
  have he : "echo".data = ['e', 'c', 'h', 'o'] := rfl
  have hf : "fable".data = ['f', 'a', 'b', 'l', 'e'] := rfl
  have ho : "onyx".data = ['o', 'n', 'y', 'x'] := rfl
  have hn : "nova".data = ['n', 'o', 'v', 'a'] := rfl
  have hs : "shimmer".data = ['s', 'h', 'i', 'm', 'm', 'e', 'r'] := rfl
  cases v1 <;> cases v2 <;>
    simp [VoiceOption.id, ha, he, hf, ho, hn, hs] at hd <;>
    exact ⟨string_data_inj hd, rfl⟩

/-- Claim C7: the audio cache is consulted before every speech request and
makes repeat playback idempotent with respect to the network — a second
play of an already-fetched (text, voice) pair issues no further network
call, leaves the cache unchanged and reuses the stored handle — and the
cache key is exactly the (text, voice) pair: a lookup hit returns the
stored entry unchanged, and the key function restricted to the app's six
voices is injective, so distinct pairs never collide. -/
theorem C7_audio_cache (cache : List (String × String)) (word voice u1 u2 : String) :
    ((playWordAudioFetch (playWordAudioFetch cache word voice u1).1 word voice u2).2.2
        = 0 ∧
      (playWordAudioFetch (playWordAudioFetch cache word voice u1).1 word voice u2).1
        = (playWordAudioFetch cache word voice u1).1 ∧
      (∀ uri, mapGet cache (getAudioCacheKey word voice) = some uri →
        playWordAudioFetch cache word voice u1 = (cache, uri, 0))) ∧
    (∀ t1 t2 : String, ∀ v1 v2 : VoiceOption,
      getAudioCacheKey t1 (VoiceOption.id v1) = getAudioCacheKey t2 (VoiceOption.id v2)
        ↔ (t1 = t2 ∧ v1 = v2)) := by
  refine ⟨⟨?_, ?_, ?_⟩, ?_⟩
  · rcases hget : mapGet cache (getAudioCacheKey word voice) with _ | uri
    · show (playWordAudioFetch
          (playWordAudioFetch cache word voice u1).1 word voice u2).2.2 = 0
      unfold playWordAudioFetch
      rw [hget]
      simp only [mapGet_mapSet_self]
    · unfold playWordAudioFetch
      rw [hget]
      simp only [hget]
  · rcases hget : mapGet cache (getAudioCacheKey word voice) with _ | uri
    · unfold playWordAudioFetch
      rw [hget]
      simp only [mapGet_mapSet_self]
    · unfold playWordAudioFetch
      rw [hget]
      simp only [hget]
  · intro uri hget
    unfold playWordAudioFetch
    rw [hget]
  · intro t1 t2 v1 v2
    constructor
    · exact getAudioCacheKey_inj t1 t2 v1 v2
    · rintro ⟨rfl, rfl⟩
      rfl

/-- Witness for C7: a concrete repeat play issues no second network call. -/
theorem C7_audio_cache_witness :
    (playWordAudioFetch (playWordAudioFetch [] "hello" "alloy" "file1.mp3").1
        "hello" "alloy" "file2.mp3").2.2 = 0 :=
  (C7_audio_cache [] "hello" "alloy" "file1.mp3" "file2.mp3").1.1

/-! ## Claim C8: saved words -/

/-- Modelled from the spec: the saved-words membership test `isSavedWord`.
The saved-words portion of the lesson store (`savedWords`,
`toggleSavedWord`, `removeSavedWord`, `isSavedWord` and the storage
persistence) is invoked by `WordsListScreen` and the saved-words screen but
its implementation is not among the sources; the spec describes a set of
`WordPhonetic` entries with case-sensitive `word` identity. -/
def isSavedWord (saved : List WordPhonetic) (w : String) : Bool :=
  saved.any (fun x => x.word = w)

/-- Modelled from the spec: `removeSavedWord` drops every entry whose
`word` equals the given word (case-sensitive exact match). -/
def removeSavedWord (saved : List WordPhonetic) (w : String) : List WordPhonetic :=
  saved.filter (fun x => x.word ≠ w)

/-- Modelled from the spec: `toggleSavedWord` removes the word when it is
saved and appends it otherwise. -/
def toggleSavedWord (saved : List WordPhonetic) (w : WordPhonetic) :
    List WordPhonetic :=
  if isSavedWord saved w.word then removeSavedWord saved w.word
  else saved ++ [w]

/-- Modelled from the spec: every saved-words mutation is followed by a
fire-and-forget asynchronous write to durable storage; a persistence
failure (`persistOk = false`) is swallowed — the in-memory set is the
mutation's result either way and no error is surfaced. -/
def toggleSavedWordOp (saved : List WordPhonetic) (w : WordPhonetic)
    (persistOk : Bool) : List WordPhonetic × Option String :=
  (toggleSavedWord saved w, none)

/-- The saved-words set has no two entries with the same `word` value. -/
def NoDupWords (saved : List WordPhonetic) : Prop :=
  (saved.map WordPhonetic.word).Nodup

theorem noDupWords_removeSavedWord (saved : List WordPhonetic) (w : String)
    (h : NoDupWords saved) : NoDupWords (removeSavedWord saved w) := by
  unfold NoDupWords removeSavedWord
  exact List.Nodup.sublist ((List.filter_sublist _).map WordPhonetic.word) h

theorem isSavedWord_removeSavedWord (saved : List WordPhonetic) (w : String) :
    isSavedWord (removeSavedWord saved w) w = false := by
  unfold isSavedWord removeSavedWord
  rw [List.any_eq_false]
  intro x hx
  simp only [List.mem_filter, decide_eq_true_eq, Bool.not_eq_true] at hx ⊢
  intro hxw
  have := hx.2
  simp [hxw] at this

theorem noDupWords_toggleSavedWord (saved : List WordPhonetic) (w : WordPhonetic)
    (h : NoDupWords saved) : NoDupWords (toggleSavedWord saved w) := by
  unfold toggleSavedWord
  by_cases hs : isSavedWord saved w.word = true
  · rw [if_pos hs]
    exact noDupWords_removeSavedWord saved w.word h
  · rw [if_neg hs]
    simp only [isSavedWord, List.any_eq_true, decide_eq_true_eq, not_exists,
      not_and] at hs
    unfold NoDupWords at h ⊢
    rw [List.map_append]
    simp only [List.map_cons, List.map_nil]
    rw [List.nodup_append]
    refine ⟨h, List.nodup_singleton _, ?_⟩
    intro a ha hb
    obtain ⟨x, hx, hxw⟩ := List.mem_map.mp ha
    obtain rfl : a = w.word := by simpa using hb
    exact hs x hx (by rw [hxw])

theorem isSavedWord_append_self (saved : List WordPhonetic) (w : WordPhonetic) :
    isSavedWord (saved ++ [w]) w.word = true := by
  unfold isSavedWord
  rw [List.any_eq_true]
  exact ⟨w, by simp, by simp⟩

/-- Claim C8: the saved-words operations maintain a set without two entries
sharing the same (case-sensitive) `word` value; toggling an unsaved word
twice returns the set to not containing that word (and one toggle saves
it); removing a word leaves the set without it; and every mutation's
fire-and-forget persistence swallows failures — the resulting set and the
absence of a surfaced error are independent of whether the durable write
succeeded. -/
theorem C8_savedWords_ops (saved : List WordPhonetic) (w : WordPhonetic)
    (word : String) :
    (NoDupWords saved → NoDupWords (toggleSavedWord saved w)) ∧
    (NoDupWords saved → NoDupWords (removeSavedWord saved word)) ∧
    isSavedWord (removeSavedWord saved word) word = false ∧
    (isSavedWord saved w.word = false →
      isSavedWord (toggleSavedWord saved w) w.word = true ∧
      isSavedWord (toggleSavedWord (toggleSavedWord saved w) w) w.word = false) ∧
    (∀ persistOk, toggleSavedWordOp saved w persistOk
      = (toggleSavedWord saved w, none)) := by
  refine ⟨noDupWords_toggleSavedWord saved w,
    noDupWords_removeSavedWord saved word,
    isSavedWord_removeSavedWord saved word, ?_, fun _ => rfl⟩
  intro h
  have h1 : toggleSavedWord saved w = saved ++ [w] := by
    unfold toggleSavedWord
    rw [if_neg (by rw [h]; simp)]
  constructor
  · rw [h1]
    exact isSavedWord_append_self saved w
  · rw [h1]
    have h2 : toggleSavedWord (saved ++ [w]) w
        = removeSavedWord (saved ++ [w]) w.word := by
      unfold toggleSavedWord
      rw [if_pos (isSavedWord_append_self saved w)]
    rw [h2]
    exact isSavedWord_removeSavedWord _ _

/-- Witness for C8: toggling "hello" twice from the empty set leaves it
unsaved. -/
theorem C8_savedWords_ops_witness :
    isSavedWord (toggleSavedWord
        (toggleSavedWord [] { word := "hello", phonetic := "h" })
        { word := "hello", phonetic := "h" }) "hello" = false :=
  ((C8_savedWords_ops [] { word := "hello", phonetic := "h" } "x").2.2.2.1
    (by decide)).2
